/-
Verification of the CAIPI interactive-learning loop orchestrator (caipi.py).

The development shallowly embeds the `caipi` round loop: query selection over
the evolving known/unknown split, the selection assertion, explanation gating,
correction accumulation, dataset assembly, the class-balance diagnostic,
retraining bookkeeping and the evaluation cadence.  Collaborator calls
(Learner.select_query / predict / get_params, Problem.explain / query_label /
query_corrections / eval) are opaque function parameters gathered in `Env`,
exactly as the orchestrator treats them.  Machine floats in the balance
diagnostic are modelled as rationals, with `none` standing for the
division-by-zero case.  Each round appends to explicit trace fields of `St`
the values the source computes in that round, so that theorems can speak
about every executed round.
-/
import Mathlib

namespace Caipi

/-- Configuration of one `caipi` run: the example-index lists and the loop
parameters, matching the formal parameters of `caipi` in the source. -/
structure Config where
  train : List Nat
  test : List Nat
  evalExs : List Nat
  maxIters : Nat
  startExplAt : Int
  evalIters : Nat

/-- Collaborators of the orchestrator.  `Row` is the opaque type of feature
rows, `Expl` of explanation artifacts, `Param` of model-parameter snapshots.
Learner-side state evolution is captured by indexing the learner calls with
the round counter `t`; `select` also receives the unrestricted unknown pool,
information a concrete learner may reconstruct from the problem. -/
structure Env (Row Expl Param : Type) where
  X : Nat → Row
  y : Nat → Nat
  nClasses : Nat
  explainable : List Nat
  queryLabel : Nat → Nat
  select : Nat → List Nat → List Nat → Nat
  predict : Nat → Row → Nat
  explainF : Nat → List Nat → Nat → Nat → Expl
  queryCorrections : Option (List Row) → Option (List Nat) → Nat → Nat →
    Option Expl → List Row → Option (List Row) × Option (List Nat)
  getParams : Nat → Param
  evalF : Nat → List Nat → List Nat → Option (List Nat) → List Nat

/-- Mutable state of the loop.  `known`, `Xcorr`, `ycorr`, `perfs`, `params`
are the source's variables; `balances`, `fits`, `expls`, `evals`, `queried`
record, round by round, the balance value, the dataset passed to `fit`, the
explanation flag, the eval-set argument and the selected query index. -/
structure St (Row Param : Type) where
  known : List Nat
  Xcorr : Option (List Row)
  ycorr : Option (List Nat)
  perfs : List (List Nat)
  params : List Param
  balances : List (Option ℚ)
  fits : List (List Row × List Nat)
  expls : List Bool
  evals : List (Option (List Nat))
  queried : List Nat

variable {Row Expl Param : Type}

/-- Unknown pool of a round: `set(train_examples) - set(known_examples)`. -/
def unknownOf (cfg : Config) (s : St Row Param) : List Nat :=
  cfg.train.filter (fun j => decide (j ∉ s.known))

/-- Explainable-restricted candidate pool:
`unknown_examples & problem.explainable`. -/
def poolOf (env : Env Row Expl Param) (cfg : Config) (s : St Row Param) :
    List Nat :=
  (unknownOf cfg s).filter (fun j => decide (j ∈ env.explainable))

/-- Index selected by the learner this round:
`learner.select_query(problem, unknown_examples & problem.explainable)`. -/
def selIdx (env : Env Row Expl Param) (cfg : Config) (t : Nat)
    (s : St Row Param) : Nat :=
  env.select t (poolOf env cfg s) (unknownOf cfg s)

/-- Explanation gating of the source: `explain = 0 <= start_expl_at <= t`. -/
def explainFlag (cfg : Config) (t : Nat) : Bool :=
  decide (0 ≤ cfg.startExplAt ∧ cfg.startExplAt ≤ (t : Int))

/-- Correction accumulator after the conditional
`problem.query_corrections` call of round `t`. -/
def corrOf (env : Env Row Expl Param) (cfg : Config) (t : Nat)
    (s : St Row Param) : Option (List Row) × Option (List Nat) :=
  if explainFlag cfg t then
    env.queryCorrections s.Xcorr s.ycorr (selIdx env cfg t s)
      (env.predict t (env.X (selIdx env cfg t s)))
      (some (env.explainF t s.known (selIdx env cfg t s)
        (env.predict t (env.X (selIdx env cfg t s)))))
      (cfg.test.map env.X)
  else (s.Xcorr, s.ycorr)

/-- Per-class proportions of the assembled label vector, one entry per
declared class: `len(y_known[y_known == label]) / len(y_known)`. -/
def per_class (n : Nat) (ys : List Nat) : List ℚ :=
  (List.range n).map (fun label => ((ys.count label : ℚ)) / ((ys.length : ℚ)))

/-- Class-balance diagnostic `np.max(per_class) / np.min(per_class)`.
There is no clamping in the source; `none` models the case in which the
float division is a division by zero (or the proportions array is empty). -/
def balance (n : Nat) (ys : List Nat) : Option ℚ :=
  match (per_class n ys).max?, (per_class n ys).min? with
  | some mx, some mn => if mn = 0 then none else some (mx / mn)
  | _, _ => none

/-- Body of one round of the loop (lines following a passed selection
assertion), producing the successor state. -/
def roundBody (env : Env Row Expl Param) (cfg : Config) (t : Nat)
    (s : St Row Param) : St Row Param :=
  { known := s.known ++ [selIdx env cfg t s]
    Xcorr := (corrOf env cfg t s).1
    ycorr := (corrOf env cfg t s).2
    perfs := s.perfs ++
      [env.evalF t (s.known ++ [selIdx env cfg t s]) cfg.test
          (if t % cfg.evalIters = 0 then some cfg.evalExs else none) ++
        [((corrOf env cfg t s).2.getD []).length]]
    params := s.params ++ [env.getParams t]
    balances := s.balances ++
      [balance env.nClasses
        (((corrOf env cfg t s).2.getD []) ++
          (s.known ++ [selIdx env cfg t s]).map env.y)]
    fits := s.fits ++
      [((((corrOf env cfg t s).1.getD []) ++
          (s.known ++ [selIdx env cfg t s]).map env.X),
        (((corrOf env cfg t s).2.getD []) ++
          (s.known ++ [selIdx env cfg t s]).map env.y))]
    expls := s.expls ++ [explainFlag cfg t]
    evals := s.evals ++ [if t % cfg.evalIters = 0 then some cfg.evalExs else none]
    queried := s.queried ++ [selIdx env cfg t s] }

/-- One round including the selection assertion
`assert i in train_examples and i not in known_examples`; a failed
assertion aborts the run. -/
def round (env : Env Row Expl Param) (cfg : Config) (t : Nat)
    (s : St Row Param) : Except Unit (St Row Param) :=
  if selIdx env cfg t s ∈ cfg.train ∧ selIdx env cfg t s ∉ s.known then
    .ok (roundBody env cfg t s)
  else .error ()

/-- The `for t in range(max_iters)` loop with its break
`if len(known_examples) >= len(train_examples)`. -/
def caipiLoop (env : Env Row Expl Param) (cfg : Config) :
    Nat → Nat → St Row Param → Except Unit (St Row Param)
  | _, 0, s => .ok s
  | t, fuel + 1, s =>
    if s.known.length ≥ cfg.train.length then .ok s
    else
      match round env cfg t s with
      | .ok s₁ => caipiLoop env cfg (t + 1) fuel s₁
      | .error e => .error e

/-- Initial loop state: `perfs, params = [], []` and
`X_corr, y_corr = None, None`. -/
def initSt (known0 : List Nat) : St Row Param :=
  { known := known0, Xcorr := none, ycorr := none, perfs := [], params := []
    balances := [], fits := [], expls := [], evals := [], queried := [] }

/-- The `caipi` orchestrator: runs the round loop from `t = 0` on the
caller's `known_examples` list. -/
def caipi (env : Env Row Expl Param) (cfg : Config) (known0 : List Nat) :
    Except Unit (St Row Param) :=
  caipiLoop env cfg 0 cfg.maxIters (initSt known0)

/-- Modelled from the spec: the Learner class (its `select_query` strategy
dispatch) is not among these sources; per the spec, when the
explainable-restricted pool is empty the learner falls back to selecting
over the full unknown pool.  `choice` is the pluggable strategy. -/
def select_query (choice : List Nat → Nat) (pool unknown : List Nat) : Nat :=
  if pool.isEmpty then choice unknown else choice pool

/-- Corrections-only step of `eval_passive`: the fit and evaluation run
only when `np.min(y_corr) != np.max(y_corr)`; otherwise `corr_params`
stays `None` and nothing is fitted. -/
def evalPassiveCorr (fit : List Int → Param) (ev : Param → List Nat)
    (ycorr : List Int) : Option (Param × List Nat) :=
  match ycorr.min?, ycorr.max? with
  | some mn, some mx =>
      if mn ≠ mx then
        some (fit ycorr, ev (fit ycorr))
      else none
  | _, _ => none

/-- Concrete environment used by concrete-instance theorems: two declared
classes, all labels 0, example 1 the only explainable one, a head-of-pool
selection strategy and identity-style opaque collaborators. -/
def envC : Env Nat Nat Nat :=
  { X := id, y := fun _ => 0, nClasses := 2, explainable := [1]
    queryLabel := fun _ => 0
    select := fun _ pool unknown => (pool ++ unknown).headD 0
    predict := fun _ _ => 0, explainF := fun _ _ _ _ => 0
    queryCorrections := fun xc yc _ _ _ _ => (xc, yc)
    getParams := fun t => t, evalF := fun _ _ _ _ => [] }

/-- Concrete configuration: two training examples, one round. -/
def cfgC : Config :=
  { train := [0, 1], test := [], evalExs := [], maxIters := 1
    startExplAt := -1, evalIters := 1 }

section Lemmas

variable (env : Env Row Expl Param) (cfg : Config)

theorem roundBody_known (t : Nat) (s : St Row Param) :
    (roundBody env cfg t s).known = s.known ++ [selIdx env cfg t s] := rfl

theorem roundBody_queried (t : Nat) (s : St Row Param) :
    (roundBody env cfg t s).queried = s.queried ++ [selIdx env cfg t s] := rfl

theorem roundBody_perfs_len (t : Nat) (s : St Row Param) :
    (roundBody env cfg t s).perfs.length = s.perfs.length + 1 := by
  simp [roundBody]

theorem roundBody_Xcorr (t : Nat) (s : St Row Param) :
    (roundBody env cfg t s).Xcorr = (corrOf env cfg t s).1 := rfl

theorem roundBody_ycorr (t : Nat) (s : St Row Param) :
    (roundBody env cfg t s).ycorr = (corrOf env cfg t s).2 := rfl

theorem roundBody_expls (t : Nat) (s : St Row Param) :
    (roundBody env cfg t s).expls = s.expls ++ [explainFlag cfg t] := rfl

theorem roundBody_evals (t : Nat) (s : St Row Param) :
    (roundBody env cfg t s).evals =
      s.evals ++ [if t % cfg.evalIters = 0 then some cfg.evalExs else none] :=
  rfl

theorem round_eq_ok_iff {t : Nat} {s s₁ : St Row Param} :
    round env cfg t s = .ok s₁ ↔
      (selIdx env cfg t s ∈ cfg.train ∧ selIdx env cfg t s ∉ s.known) ∧
        s₁ = roundBody env cfg t s := by
  unfold round
  split
  · rename_i hc
    constructor
    · intro h
      exact ⟨hc, (Except.ok.injEq _ _).mp h.symm⟩
    · rintro ⟨-, rfl⟩
      rfl
  · rename_i hc
    constructor
    · intro h
      cases h
    · rintro ⟨hc2, -⟩
      exact absurd hc2 hc

theorem round_eq_error_iff {t : Nat} {s : St Row Param} :
    round env cfg t s = .error () ↔
      ¬ (selIdx env cfg t s ∈ cfg.train ∧ selIdx env cfg t s ∉ s.known) := by
  unfold round
  split
  · rename_i hc
    simp [hc]
  · rename_i hc
    simp [hc]

theorem explainFlag_of_neg {t : Nat} (h : cfg.startExplAt < 0) :
    explainFlag cfg t = false := by
  unfold explainFlag
  rw [decide_eq_false_iff_not]
  rintro ⟨h0, -⟩
  omega

theorem corrOf_of_neg (t : Nat) (s : St Row Param)
    (h : cfg.startExplAt < 0) :
    corrOf env cfg t s = (s.Xcorr, s.ycorr) := by
  unfold corrOf
  rw [explainFlag_of_neg cfg h]
  simp

/-- Master invariant of the round loop: from any state, a successful run
appends some query list `qs` to both `known` and `queried`, appends one
performance record per query, uses at most `fuel` rounds, keeps every
query inside `train`, preserves `Nodup`, and stops early only when `known`
has covered `train`. -/
theorem caipiLoop_inv :
    ∀ (fuel t : Nat) (s s' : St Row Param),
      caipiLoop env cfg t fuel s = .ok s' →
      ∃ qs : List Nat,
        s'.known = s.known ++ qs ∧
        s'.queried = s.queried ++ qs ∧
        s'.perfs.length = s.perfs.length + qs.length ∧
        qs.length ≤ fuel ∧
        (∀ q ∈ qs, q ∈ cfg.train) ∧
        (s.known.Nodup → s'.known.Nodup) ∧
        (qs.length = fuel ∨ cfg.train.length ≤ s'.known.length) := by
  intro fuel
  induction fuel with
  | zero =>
    intro t s s' h
    cases h
    exact ⟨[], by simp, by simp, by simp, by simp, by simp, fun hh => hh,
      Or.inl rfl⟩
  | succ f ih =>
    intro t s s' h
    rw [caipiLoop] at h
    split at h
    · rename_i hlen
      cases h
      exact ⟨[], by simp, by simp, by simp, by simp, by simp, fun hh => hh,
        Or.inr hlen⟩
    · rename_i hlen
      cases hr : round env cfg t s with
      | error e =>
        rw [hr] at h
        cases h
      | ok s₁ =>
        rw [hr] at h
        obtain ⟨⟨hit, hik⟩, rfl⟩ := (round_eq_ok_iff env cfg).mp hr
        obtain ⟨qs, h1, h2, h3, h4, h5, h6, h7⟩ := ih (t + 1) _ s' h
        refine ⟨selIdx env cfg t s :: qs, ?_, ?_, ?_, ?_, ?_, ?_, ?_⟩
        · rw [h1, roundBody_known]
          simp
        · rw [h2, roundBody_queried]
          simp
        · rw [h3, roundBody_perfs_len]
          simp [Nat.add_comm, Nat.add_assoc, Nat.add_left_comm]
        · simpa using Nat.succ_le_succ h4
        · intro q hq
          rcases List.mem_cons.mp hq with rfl | hq2
          · exact hit
          · exact h5 q hq2
        · intro hnd
          apply h6
          rw [roundBody_known]
          simp only [List.nodup_append, List.nodup_cons, List.nodup_nil,
            List.disjoint_singleton]
          exact ⟨hnd, by simp, by simpa using hik⟩
        · rcases h7 with h7 | h7
          · exact Or.inl (by simp [h7])
          · exact Or.inr h7

/-- Alignment is preserved by one round's correction step, assuming the
`query_corrections` collaborator preserves it. -/
theorem corrOf_align (t : Nat) (s : St Row Param)
    (Halign : ∀ (xc : Option (List Row)) (yc : Option (List Nat)) i py pe xt,
      (xc.getD []).length = (yc.getD []).length →
      (((env.queryCorrections xc yc i py pe xt).1).getD []).length =
        (((env.queryCorrections xc yc i py pe xt).2).getD []).length)
    (hs : (s.Xcorr.getD []).length = (s.ycorr.getD []).length) :
    ((corrOf env cfg t s).1.getD []).length =
      ((corrOf env cfg t s).2.getD []).length := by
  unfold corrOf
  split
  · exact Halign _ _ _ _ _ _ hs
  · exact hs

/-- Loop-level alignment invariant for the correction accumulator and every
dataset handed to `fit`. -/
theorem caipiLoop_align
    (Halign : ∀ (xc : Option (List Row)) (yc : Option (List Nat)) i py pe xt,
      (xc.getD []).length = (yc.getD []).length →
      (((env.queryCorrections xc yc i py pe xt).1).getD []).length =
        (((env.queryCorrections xc yc i py pe xt).2).getD []).length) :
    ∀ (fuel t : Nat) (s s' : St Row Param),
      caipiLoop env cfg t fuel s = .ok s' →
      (s.Xcorr.getD []).length = (s.ycorr.getD []).length →
      (∀ d ∈ s.fits, d.1.length = d.2.length) →
      (s'.Xcorr.getD []).length = (s'.ycorr.getD []).length ∧
        (∀ d ∈ s'.fits, d.1.length = d.2.length) := by
  intro fuel
  induction fuel with
  | zero =>
    intro t s s' h ha hf
    cases h
    exact ⟨ha, hf⟩
  | succ f ih =>
    intro t s s' h ha hf
    rw [caipiLoop] at h
    split at h
    · cases h
      exact ⟨ha, hf⟩
    · cases hr : round env cfg t s with
      | error e =>
        rw [hr] at h
        cases h
      | ok s₁ =>
        rw [hr] at h
        obtain ⟨-, rfl⟩ := (round_eq_ok_iff env cfg).mp hr
        refine ih (t + 1) _ s' h ?_ ?_
        · rw [roundBody_Xcorr, roundBody_ycorr]
          exact corrOf_align env cfg t s Halign ha
        · intro d hd
          rw [roundBody] at hd
          simp only [List.mem_append, List.mem_singleton] at hd
          rcases hd with hd | rfl
          · exact hf d hd
          · simp only [List.length_append, List.length_map]
            rw [corrOf_align env cfg t s Halign ha]

/-- Loop-level invariant when explanations are disabled: the correction
accumulator stays `None`, every recorded explanation flag is `false`, every
performance record ends in correction count `0`, and every dataset handed
to `fit` is exactly the rows and labels of a known-example list. -/
theorem caipiLoop_noexpl (hneg : cfg.startExplAt < 0) :
    ∀ (fuel t : Nat) (s s' : St Row Param),
      caipiLoop env cfg t fuel s = .ok s' →
      s.Xcorr = none → s.ycorr = none →
      (∀ b ∈ s.expls, b = false) →
      (∀ p ∈ s.perfs, p.getLast? = some 0) →
      (∀ d ∈ s.fits, ∃ kn : List Nat, d.1 = kn.map env.X ∧ d.2 = kn.map env.y) →
      s'.Xcorr = none ∧ s'.ycorr = none ∧
        (∀ b ∈ s'.expls, b = false) ∧
        (∀ p ∈ s'.perfs, p.getLast? = some 0) ∧
        (∀ d ∈ s'.fits, ∃ kn : List Nat, d.1 = kn.map env.X ∧ d.2 = kn.map env.y) := by
  intro fuel
  induction fuel with
  | zero =>
    intro t s s' h hx hy he hp hf
    cases h
    exact ⟨hx, hy, he, hp, hf⟩
  | succ f ih =>
    intro t s s' h hx hy he hp hf
    rw [caipiLoop] at h
    split at h
    · cases h
      exact ⟨hx, hy, he, hp, hf⟩
    · cases hr : round env cfg t s with
      | error e =>
        rw [hr] at h
        cases h
      | ok s₁ =>
        rw [hr] at h
        obtain ⟨-, rfl⟩ := (round_eq_ok_iff env cfg).mp hr
        have hc : corrOf env cfg t s = (s.Xcorr, s.ycorr) :=
          corrOf_of_neg env cfg t s hneg
        refine ih (t + 1) _ s' h ?_ ?_ ?_ ?_ ?_
        · rw [roundBody_Xcorr, hc, hx]
        · rw [roundBody_ycorr, hc, hy]
        · intro b hb
          rw [roundBody_expls] at hb
          rcases List.mem_append.mp hb with hb | hb
          · exact he b hb
          · rw [List.mem_singleton.mp hb]
            exact explainFlag_of_neg cfg hneg
        · intro p hpm
          rw [roundBody] at hpm
          simp only [List.mem_append, List.mem_singleton] at hpm
          rcases hpm with hpm | rfl
          · exact hp p hpm
          · rw [hc, hy]
            simp
        · intro d hd
          rw [roundBody] at hd
          simp only [List.mem_append, List.mem_singleton] at hd
          rcases hd with hd | rfl
          · exact hf d hd
          · exact ⟨s.known ++ [selIdx env cfg t s], by rw [hc, hx]; simp,
              by rw [hc, hy]; simp⟩

/-- Loop-level description of the evaluation trace: the run appends, for
each executed round `u`, the eval-set argument chosen by the cadence test
`u % eval_iters == 0`, and one performance record and one query per
round. -/
theorem caipiLoop_evals :
    ∀ (fuel t : Nat) (s s' : St Row Param),
      caipiLoop env cfg t fuel s = .ok s' →
      ∃ r : Nat,
        s'.evals = s.evals ++ (List.range' t r).map
          (fun u => if u % cfg.evalIters = 0 then some cfg.evalExs else none) ∧
        s'.perfs.length = s.perfs.length + r ∧
        s'.queried.length = s.queried.length + r := by
  intro fuel
  induction fuel with
  | zero =>
    intro t s s' h
    cases h
    exact ⟨0, by simp, by simp, by simp⟩
  | succ f ih =>
    intro t s s' h
    rw [caipiLoop] at h
    split at h
    · cases h
      exact ⟨0, by simp, by simp, by simp⟩
    · cases hr : round env cfg t s with
      | error e =>
        rw [hr] at h
        cases h
      | ok s₁ =>
        rw [hr] at h
        obtain ⟨-, rfl⟩ := (round_eq_ok_iff env cfg).mp hr
        obtain ⟨r, h1, h2, h3⟩ := ih (t + 1) _ s' h
        refine ⟨r + 1, ?_, ?_, ?_⟩
        · rw [h1, roundBody_evals, List.range'_succ]
          simp
        · rw [h2, roundBody_perfs_len]
          omega
        · rw [h3, roundBody_queried]
          simp
          omega

/-- Specification of `List.max?` over a linear order. -/
theorem max?_spec {α : Type} [LinearOrder α] {l : List α} {a : α}
    (h : l.max? = some a) : a ∈ l ∧ ∀ b ∈ l, b ≤ a := by
  have anti : Std.Antisymm ((· : α) ≤ ·) := ⟨fun h1 h2 => le_antisymm h1 h2⟩
  exact (List.max?_eq_some_iff (fun x => le_refl x) max_choice
    (fun x b c => max_le_iff)).mp h

/-- Specification of `List.min?` over a linear order. -/
theorem min?_spec {α : Type} [LinearOrder α] {l : List α} {a : α}
    (h : l.min? = some a) : a ∈ l ∧ ∀ b ∈ l, a ≤ b := by
  have anti : Std.Antisymm ((· : α) ≤ ·) := ⟨fun h1 h2 => le_antisymm h1 h2⟩
  have := (List.min?_eq_some_iff (fun x => le_refl x) min_choice
    (fun x b c => le_min_iff)).mp h
  exact ⟨this.1, fun b hb => this.2 b hb⟩

/-- A nonempty list has a `some` minimum and a `some` maximum. -/
theorem min?_max?_isSome {α : Type} [LinearOrder α] {l : List α}
    (h : l ≠ []) : (∃ mn, l.min? = some mn) ∧ (∃ mx, l.max? = some mx) := by
  constructor
  · cases hm : l.min? with
    | none => exact absurd (List.min?_eq_none_iff.mp hm) h
    | some mn => exact ⟨mn, rfl⟩
  · cases hm : l.max? with
    | none => exact absurd (List.max?_eq_none_iff.mp hm) h
    | some mx => exact ⟨mx, rfl⟩

end Lemmas

section Claims

variable {Row Expl Param : Type}

/-- C1 (counterexample): the class-balance diagnostic is not always
well-defined in an executed round.  In this one-round run the assembled
label set is `[0, 0]` over two declared classes, class `0` has positive
count, yet the minimum per-class proportion is `0`, so the balance
computation divides by zero (no clamping exists in the code). -/
theorem caipi_balance_division_by_zero :
    (caipi envC cfgC [0]).toOption.map St.balances = some [balance 2 [0, 0]] ∧
      balance 2 [0, 0] = none ∧
      (per_class 2 [0, 0]).min? = some 0 ∧
      0 < ([0, 0] : List Nat).count 0 := by
  have h : per_class 2 [0, 0] = [1, 0] := by
    simp [per_class, List.range_succ]
  refine ⟨rfl, ?_, ?_, by decide⟩
  · unfold balance
    rw [h]
    decide
  · rw [h]
    decide

/-- C1 (amended): the balance ratio equals the maximum per-class proportion
divided by the minimum one, with no clamping: whenever every declared class
has positive count the ratio is defined and at least 1, and whenever some
declared class has zero count the minimum proportion is 0 and the division
is a division by zero (undefined value). -/
theorem balance_max_min_no_clamp (n : Nat) (ys : List Nat)
    (hn : 0 < n) (hys : ys ≠ []) :
    ((∀ l, l < n → 0 < ys.count l) → ∃ q, balance n ys = some q ∧ 1 ≤ q)
    ∧ ((∃ l, l < n ∧ ys.count l = 0) → balance n ys = none) := by
  have hpc : per_class n ys ≠ [] := by
    simp only [per_class, ne_eq, List.map_eq_nil_iff, List.range_eq_nil]
    omega
  obtain ⟨⟨mn, hmn⟩, ⟨mx, hmx⟩⟩ := min?_max?_isSome hpc
  have hmn' := min?_spec hmn
  have hmx' := max?_spec hmx
  have hlen : (0 : ℚ) < (ys.length : ℚ) := by
    have : 0 < ys.length := List.length_pos.mpr hys
    exact_mod_cast this
  constructor
  · intro hpos
    have hmnpos : 0 < mn := by
      obtain ⟨l, hl, hq⟩ := List.mem_map.mp hmn'.1
      rw [← hq]
      have hc : 0 < ys.count l := hpos l (List.mem_range.mp hl)
      have : (0 : ℚ) < (ys.count l : ℚ) := by exact_mod_cast hc
      exact div_pos this hlen
    have hle : mn ≤ mx := hmn'.2 mx hmx'.1
    refine ⟨mx / mn, ?_, (one_le_div hmnpos).mpr hle⟩
    unfold balance
    rw [hmx, hmn]
    show (if mn = 0 then none else some (mx / mn)) = some (mx / mn)
    rw [if_neg (ne_of_gt hmnpos)]
  · rintro ⟨l, hl, hcnt⟩
    have hz : (0 : ℚ) ∈ per_class n ys := by
      refine List.mem_map.mpr ⟨l, List.mem_range.mpr hl, ?_⟩
      rw [hcnt]
      simp
    have hmnle : mn ≤ 0 := hmn'.2 0 hz
    have hmnge : 0 ≤ mn := by
      obtain ⟨l', hl', hq⟩ := List.mem_map.mp hmn'.1
      rw [← hq]
      have : (0 : ℚ) ≤ (ys.count l' : ℚ) := by positivity
      exact div_nonneg this (le_of_lt hlen)
    have : mn = 0 := le_antisymm hmnle hmnge
    unfold balance
    rw [hmx, hmn]
    show (if mn = 0 then none else some (mx / mn)) = none
    rw [if_pos this]

/-- Witness for C1 (amended) at `n = 2`, `ys = [0, 1, 1]`. -/
theorem balance_max_min_no_clamp_instance :
    ∃ q, balance 2 [0, 1, 1] = some q ∧ 1 ≤ q :=
  (balance_max_min_no_clamp 2 [0, 1, 1] (by decide) (by decide)).1 (by decide)

/-- C2: when the explainable-restricted pool is empty but the unknown pool
is not, the (spec-modelled) fallback of `select_query` picks from the full
unknown pool, and the round proceeds without error since the selected index
is in `train_examples` and not in `known_examples`. -/
theorem select_query_fallback_mem_unknown
    (choice : List Nat → Nat)
    (hchoice : ∀ l : List Nat, l ≠ [] → choice l ∈ l)
    (env : Env Row Expl Param) (cfg : Config) (t : Nat) (s : St Row Param)
    (hsel : env.select =
      fun _ pool unknown => select_query choice pool unknown)
    (hpool : poolOf env cfg s = [])
    (hunk : unknownOf cfg s ≠ []) :
    selIdx env cfg t s ∈ unknownOf cfg s ∧
      round env cfg t s = .ok (roundBody env cfg t s) := by
  have hmem : selIdx env cfg t s ∈ unknownOf cfg s := by
    unfold selIdx
    rw [hsel, hpool]
    unfold select_query
    simp only [List.isEmpty_nil, if_true]
    exact hchoice _ hunk
  refine ⟨hmem, ?_⟩
  have h2 : selIdx env cfg t s ∈ cfg.train ∧ selIdx env cfg t s ∉ s.known := by
    have := hmem
    unfold unknownOf at this
    simpa [List.mem_filter] using this
  unfold round
  rw [if_pos h2]

/-- Concrete environment for the C2 witness: no example explainable, the
selection implemented by the spec-modelled `select_query` over a
head-of-list strategy. -/
def envC2 : Env Nat Nat Nat :=
  { envC with
    explainable := []
    select := fun _ pool unknown =>
      select_query (fun l => l.headD 0) pool unknown }

/-- Witness for C2: with `train = [0, 1]`, `known = [0]` and an empty
explainable set, the fallback selects index 1 from the unknown pool and
the round succeeds. -/
theorem select_query_fallback_mem_unknown_instance :
    selIdx envC2 cfgC 0 (initSt [0] : St Nat Nat) ∈
        unknownOf cfgC (initSt [0] : St Nat Nat) ∧
      round envC2 cfgC 0 (initSt [0] : St Nat Nat) =
        .ok (roundBody envC2 cfgC 0 (initSt [0] : St Nat Nat)) :=
  select_query_fallback_mem_unknown (fun l => l.headD 0)
    (fun l hl => by
      cases l with
      | nil => exact absurd rfl hl
      | cons a as => simp)
    envC2 cfgC 0 (initSt [0] : St Nat Nat) rfl (by decide) (by decide)

/-- C3: across every round of a successful run, `known_examples` is the
initial list with the selected queries appended in order, has no
duplicates, stays inside `train_examples`, and its length grows by exactly
one per executed round (one performance record is appended per round). -/
theorem caipi_known_growth (env : Env Row Expl Param) (cfg : Config)
    (known0 : List Nat) (hnd : known0.Nodup)
    (hsub : ∀ x ∈ known0, x ∈ cfg.train) (s' : St Row Param)
    (hok : caipi env cfg known0 = .ok s') :
    s'.known = known0 ++ s'.queried ∧
      s'.known.Nodup ∧
      (∀ x ∈ s'.known, x ∈ cfg.train) ∧
      s'.known.length = known0.length + s'.perfs.length := by
  obtain ⟨qs, h1, h2, h3, h4, h5, h6, h7⟩ :=
    caipiLoop_inv env cfg cfg.maxIters 0 (initSt known0) s' hok
  have hq : s'.queried = qs := by simpa [initSt] using h2
  have hk : s'.known = known0 ++ qs := by simpa [initSt] using h1
  have hp : s'.perfs.length = qs.length := by simpa [initSt] using h3
  refine ⟨by rw [hq, hk], h6 (by simpa [initSt] using hnd), ?_, ?_⟩
  · intro x hx
    rw [hk] at hx
    rcases List.mem_append.mp hx with hx | hx
    exacts [hsub x hx, h5 x hx]
  · rw [hk]
    simp [hp]

/-- Witness state: the final state of the concrete one-round run. -/
def stW : St Nat Nat :=
  ((caipi envC cfgC [0]).toOption).get (by rfl)

/-- Witness for C3 on the concrete one-round run. -/
theorem caipi_known_growth_instance :
    stW.known = [0] ++ stW.queried ∧
      stW.known.Nodup ∧
      (∀ x ∈ stW.known, x ∈ cfgC.train) ∧
      stW.known.length = ([0] : List Nat).length + stW.perfs.length :=
  caipi_known_growth envC cfgC [0] (by decide) (by decide) stW (by rfl)

/-- C4: the loop always terminates within `max_iters` rounds, and an early
exit only happens once `known_examples` has covered `train_examples`;
with `max_iters = 0` no round runs and the traces are empty; when
`known_examples` already has the length of `train_examples` the loop stops
on round 0 before any query. -/
theorem caipi_terminates (env : Env Row Expl Param) (cfg : Config)
    (known0 : List Nat) :
    (∀ s', caipi env cfg known0 = .ok s' →
        s'.perfs.length ≤ cfg.maxIters ∧
          (s'.perfs.length = cfg.maxIters ∨
            cfg.train.length ≤ s'.known.length))
    ∧ (cfg.maxIters = 0 → caipi env cfg known0 = .ok (initSt known0))
    ∧ (known0.length = cfg.train.length →
        caipi env cfg known0 = .ok (initSt known0)) := by
  refine ⟨?_, ?_, ?_⟩
  · intro s' hok
    obtain ⟨qs, h1, h2, h3, h4, h5, h6, h7⟩ :=
      caipiLoop_inv env cfg cfg.maxIters 0 (initSt known0) s' hok
    have hp : s'.perfs.length = qs.length := by simpa [initSt] using h3
    constructor
    · omega
    · rcases h7 with h7 | h7
      · exact Or.inl (by omega)
      · exact Or.inr h7
  · intro h0
    unfold caipi
    rw [h0]
    rfl
  · intro hlen
    unfold caipi
    cases hm : cfg.maxIters with
    | zero => rfl
    | succ m =>
      rw [caipiLoop, if_pos (by simp [initSt]; omega)]

/-- Configuration with `max_iters = 0` for the C4 witness. -/
def cfg0 : Config :=
  { cfgC with maxIters := 0 }

/-- Witness for C4: with `max_iters = 0` the run performs zero rounds and
returns the initial (empty-trace) state. -/
theorem caipi_terminates_instance :
    caipi envC cfg0 [0] = .ok (initSt [0]) :=
  (caipi_terminates envC cfg0 [0]).2.1 rfl

/-- C5: immediately after selection, the round checks the assertion
`i ∈ train_examples ∧ i ∉ known_examples`; on violation the round (and the
whole loop, when the coverage break has not fired) aborts with an error and
no further step of the round executes, while on success the round proceeds
to the normal round body. -/
theorem round_selection_assert (env : Env Row Expl Param) (cfg : Config)
    (t : Nat) (s : St Row Param) :
    (¬ (selIdx env cfg t s ∈ cfg.train ∧ selIdx env cfg t s ∉ s.known) →
        round env cfg t s = .error () ∧
          (s.known.length < cfg.train.length →
            ∀ fuel : Nat, caipiLoop env cfg t (fuel + 1) s = .error ()))
    ∧ ((selIdx env cfg t s ∈ cfg.train ∧ selIdx env cfg t s ∉ s.known) →
        round env cfg t s = .ok (roundBody env cfg t s)) := by
  constructor
  · intro hviol
    have he : round env cfg t s = .error () :=
      (round_eq_error_iff env cfg).mpr hviol
    refine ⟨he, fun hlt fuel => ?_⟩
    rw [caipiLoop, if_neg (by omega), he]
  · intro hok
    unfold round
    rw [if_pos hok]

/-- Environment whose selection strategy always returns the illegal index
5, for the C5 witness. -/
def envBad : Env Nat Nat Nat :=
  { envC with select := fun _ _ _ => 5 }

/-- Witness for C5: a strategy returning index 5 (not in `train = [0, 1]`)
makes the loop abort. -/
theorem round_selection_assert_instance :
    caipiLoop envBad cfgC 0 1 (initSt [0]) = .error () :=
  ((round_selection_assert envBad cfgC 0 (initSt [0])).1
    (by decide)).2 (by decide) 0

/-- C6: the explanation flag of round `t` is true exactly when
`start_expl_at ≥ 0 ∧ t ≥ start_expl_at`; with a negative `start_expl_at`
a successful run never calls explanation or correction: the accumulator
stays `None`, every round's flag is false, every performance record ends
with correction count 0, and every retraining dataset consists exactly of
the rows and labels of known examples. -/
theorem caipi_explanation_gating (env : Env Row Expl Param) (cfg : Config)
    (known0 : List Nat) :
    (∀ t : Nat, explainFlag cfg t = true ↔
        0 ≤ cfg.startExplAt ∧ cfg.startExplAt ≤ (t : Int))
    ∧ (cfg.startExplAt < 0 →
        ∀ s', caipi env cfg known0 = .ok s' →
          s'.Xcorr = none ∧ s'.ycorr = none ∧
            (∀ b ∈ s'.expls, b = false) ∧
            (∀ p ∈ s'.perfs, p.getLast? = some 0) ∧
            (∀ d ∈ s'.fits, ∃ kn : List Nat,
              d.1 = kn.map env.X ∧ d.2 = kn.map env.y)) := by
  constructor
  · intro t
    simp [explainFlag]
  · intro hneg s' hok
    exact caipiLoop_noexpl env cfg hneg cfg.maxIters 0 (initSt known0) s' hok
      rfl rfl (by simp [initSt]) (by simp [initSt]) (by simp [initSt])

/-- Witness for C6 on the concrete run (`start_expl_at = -1`): the final
correction accumulator is `None`. -/
theorem caipi_explanation_gating_instance :
    stW.Xcorr = none :=
  (((caipi_explanation_gating envC cfgC [0]).2 (by decide)) stW (by rfl)).1

/-- C7: both accumulator components start absent, and under the hypothesis
that `query_corrections` returns an aligned pair, after every round the
correction accumulator holds as many feature rows as labels and every
dataset assembled for retraining has as many rows as labels. -/
theorem caipi_corr_alignment (env : Env Row Expl Param) (cfg : Config)
    (known0 : List Nat)
    (Halign : ∀ (xc : Option (List Row)) (yc : Option (List Nat)) i py pe xt,
      (xc.getD []).length = (yc.getD []).length →
      (((env.queryCorrections xc yc i py pe xt).1).getD []).length =
        (((env.queryCorrections xc yc i py pe xt).2).getD []).length)
    (s' : St Row Param) (hok : caipi env cfg known0 = .ok s') :
    (initSt known0 : St Row Param).Xcorr = none ∧
      (initSt known0 : St Row Param).ycorr = none ∧
      (s'.Xcorr.getD []).length = (s'.ycorr.getD []).length ∧
      (∀ d ∈ s'.fits, d.1.length = d.2.length) := by
  have h := caipiLoop_align env cfg Halign cfg.maxIters 0 (initSt known0) s'
    hok (by simp [initSt]) (by simp [initSt])
  exact ⟨rfl, rfl, h.1, h.2⟩

/-- Witness for C7 on the concrete run, whose `query_corrections` returns
its accumulator unchanged (hence aligned). -/
theorem caipi_corr_alignment_instance :
    (stW.Xcorr.getD []).length = (stW.ycorr.getD []).length :=
  (caipi_corr_alignment envC cfgC [0]
    (fun xc yc i py pe xt h => h) stW (by rfl)).2.2.1

/-- C8: in a successful run with `eval_iters ≥ 1`, exactly one performance
record is appended per round (one per query), the eval-argument trace has
one entry per round, and round `k` passes `eval_examples` exactly when
`k % eval_iters = 0` and passes no eval set otherwise. -/
theorem caipi_eval_cadence (env : Env Row Expl Param) (cfg : Config)
    (known0 : List Nat) (hei : 1 ≤ cfg.evalIters)
    (s' : St Row Param) (hok : caipi env cfg known0 = .ok s') :
    s'.evals.length = s'.perfs.length ∧
      s'.perfs.length = s'.queried.length ∧
      ∀ k (hk : k < s'.evals.length),
        s'.evals.get ⟨k, hk⟩ =
          if k % cfg.evalIters = 0 then some cfg.evalExs else none := by
  obtain ⟨r, h1, h2, h3⟩ :=
    caipiLoop_evals env cfg cfg.maxIters 0 (initSt known0) s' hok
  have he : s'.evals = (List.range' 0 r).map
      (fun u => if u % cfg.evalIters = 0 then some cfg.evalExs else none) := by
    simpa [initSt] using h1
  have hp : s'.perfs.length = r := by simpa [initSt] using h2
  have hq : s'.queried.length = r := by simpa [initSt] using h3
  refine ⟨?_, by omega, ?_⟩
  · rw [he]
    simp [hp]
  · intro k hk
    have hk2 : k < r := by
      rw [he] at hk
      simpa using hk
    rw [List.get_eq_getElem]
    conv in s'.evals => rw [he]
    rw [List.getElem_map, List.getElem_range']
    simp

/-- Witness for C8 on the concrete run: one eval-trace entry per
performance record. -/
theorem caipi_eval_cadence_instance :
    stW.evals.length = stW.perfs.length :=
  (caipi_eval_cadence envC cfgC [0] (by decide) stW (by rfl)).1

/-- C9: in the passive-evaluation corrections-only step, if all correction
labels are identical the fit is skipped and the snapshot stays unset, and
if two distinct labels are present the fit and evaluation are performed. -/
theorem eval_passive_corr_cases (fit : List Int → Param)
    (ev : Param → List Nat) (ycorr : List Int) (hne : ycorr ≠ []) :
    ((∀ a ∈ ycorr, ∀ b ∈ ycorr, a = b) →
        evalPassiveCorr fit ev ycorr = none)
    ∧ ((∃ a ∈ ycorr, ∃ b ∈ ycorr, a ≠ b) →
        evalPassiveCorr fit ev ycorr =
          some (fit ycorr, ev (fit ycorr))) := by
  obtain ⟨⟨mn, hmn⟩, ⟨mx, hmx⟩⟩ := min?_max?_isSome hne
  have hmn' := min?_spec hmn
  have hmx' := max?_spec hmx
  constructor
  · intro hall
    have : mn = mx := hall mn hmn'.1 mx hmx'.1
    unfold evalPassiveCorr
    rw [hmn, hmx]
    simp [this]
  · rintro ⟨a, ha, b, hb, hab⟩
    have hne2 : mn ≠ mx := by
      intro he
      have h1 : mn ≤ a := hmn'.2 a ha
      have h2 : a ≤ mx := hmx'.2 a ha
      have h3 : mn ≤ b := hmn'.2 b hb
      have h4 : b ≤ mx := hmx'.2 b hb
      exact hab (by omega)
    unfold evalPassiveCorr
    rw [hmn, hmx]
    simp [hne2]

/-- Witness for C9 with the distinct-label pair `[0, 1]`. -/
theorem eval_passive_corr_cases_instance :
    evalPassiveCorr (fun _ => (0 : Nat)) (fun _ => ([] : List Nat)) [0, 1] =
      some (0, []) :=
  (eval_passive_corr_cases (fun _ => (0 : Nat)) (fun _ => ([] : List Nat))
    [0, 1] (by decide)).2 ⟨0, by decide, 1, by decide, by decide⟩

/-- C10: `caipi` appends each selected query to the caller's
`known_examples` list in place, so after a successful run the caller's list
is the initial indices followed by every queried index in selection order
(the source makes no defensive copy on entry, and only reads
`train_examples`, `test_examples` and `eval_examples`). -/
theorem caipi_known_inplace (env : Env Row Expl Param) (cfg : Config)
    (known0 : List Nat) (s' : St Row Param)
    (hok : caipi env cfg known0 = .ok s') :
    s'.known = known0 ++ s'.queried := by
  obtain ⟨qs, h1, h2, -⟩ :=
    caipiLoop_inv env cfg cfg.maxIters 0 (initSt known0) s' hok
  have hq : s'.queried = qs := by simpa [initSt] using h2
  rw [hq]
  simpa [initSt] using h1

/-- Witness for C10 on the concrete run. -/
theorem caipi_known_inplace_instance :
    stW.known = [0] ++ stW.queried :=
  caipi_known_inplace envC cfgC [0] stW (by rfl)

end Claims

end Caipi
